import Mathlib

/-!
Verification of the added-mass motion engine: a shallow embedding of the
spatial-inertia point transform (from the derivation document) and of the
notebook's equations of motion, semi-implicit Euler integrator, and
simulation driver, with floating-point arithmetic idealized as real
arithmetic.
-/

noncomputable section

open Matrix

/-- 3-element vectors (`np` 1-d arrays of length 3). -/
abbrev Vec3 : Type := Fin 3 → ℝ

/-- 6-element vectors, the first three entries linear and the last three
angular, indexed by a sum type so that block operations are available. -/
abbrev Vec6 : Type := (Fin 3 ⊕ Fin 3) → ℝ

/-- 3×3 real matrices. -/
abbrev Mat3 : Type := Matrix (Fin 3) (Fin 3) ℝ

/-- 6×6 real matrices, block-indexed. -/
abbrev Mat6 : Type := Matrix (Fin 3 ⊕ Fin 3) (Fin 3 ⊕ Fin 3) ℝ

/-- First (linear) half of a 6-vector. -/
def linPart (v : Vec6) : Vec3 := fun i => v (Sum.inl i)

/-- Second (angular) half of a 6-vector. -/
def angPart (v : Vec6) : Vec3 := fun i => v (Sum.inr i)

/-- Stack two 3-vectors into a 6-vector. -/
def stack6 (a b : Vec3) : Vec6 := Sum.elim a b

/-- Quaternions as stored by the `quaternion` package: scalar part `w`,
vector part `(x, y, z)`. -/
structure Quat where
  w : ℝ
  x : ℝ
  y : ℝ
  z : ℝ

/-- The squared norm of a quaternion (`np.norm` of the `quaternion`
package returns the squared norm). -/
def normSq (q : Quat) : ℝ := q.w ^ 2 + q.x ^ 2 + q.y ^ 2 + q.z ^ 2

/-- Hamilton product of two quaternions, as implemented by the
`quaternion` package's multiplication operator. -/
def quatMul (a b : Quat) : Quat :=
  ⟨a.w * b.w - a.x * b.x - a.y * b.y - a.z * b.z,
   a.w * b.x + a.x * b.w + a.y * b.z - a.z * b.y,
   a.w * b.y - a.x * b.z + a.y * b.w + a.z * b.x,
   a.w * b.z + a.x * b.y - a.y * b.x + a.z * b.w⟩

/-- The identity quaternion `(1, 0, 0, 0)`. -/
def quatOne : Quat := ⟨1, 0, 0, 0⟩

/-- A pose record mirroring the notebook's `pose_dtype`: a timestamp `t`,
a position `p`, and an orientation quaternion `q`. -/
structure Pose where
  t : ℝ
  p : Vec3
  q : Quat

/-- Errors surfaced by the engine: `numericalError` models
`np.linalg.LinAlgError` on a singular matrix, `zeroDivisionError` models
the `quaternion` package's rejection of a zero orientation quaternion, and
`indexError n` models `IndexError` when reading index `n` of a sequence
that is too short. -/
inductive SimError where
  | numericalError : SimError
  | zeroDivisionError : SimError
  | indexError : ℕ → SimError
deriving DecidableEq

/-- `hat` from the notebook: the left cross-product matrix of a 3-vector. -/
def hat (v : Vec3) : Mat3 :=
  !![0, -v 2, v 1;
     v 2, 0, -v 0;
     -v 1, v 0, 0]

/-- `scipy.linalg.block_diag` restricted to two 3×3 blocks, as used by the
notebook. -/
def block_diag (A B : Mat3) : Mat6 := Matrix.fromBlocks A 0 0 B

/-- The rotation matrix of a (nonzero) quaternion, entrywise as computed
by `quaternion.as_rotation_matrix`, each entry divided by the squared
norm `n`. -/
def rotMatrix (q : Quat) : Mat3 :=
  let n := normSq q
  !![1 - 2 * (q.y ^ 2 + q.z ^ 2) / n, 2 * (q.x * q.y - q.z * q.w) / n,
       2 * (q.x * q.z + q.y * q.w) / n;
     2 * (q.x * q.y + q.z * q.w) / n, 1 - 2 * (q.x ^ 2 + q.z ^ 2) / n,
       2 * (q.y * q.z - q.x * q.w) / n;
     2 * (q.x * q.z - q.y * q.w) / n, 2 * (q.y * q.z + q.x * q.w) / n,
       1 - 2 * (q.x ^ 2 + q.y ^ 2) / n]

open Classical in
/-- `quaternion.as_rotation_matrix`: fails with a zero-division error on a
quaternion of zero (squared) norm and otherwise produces `rotMatrix`. -/
def as_rotation_matrix (q : Quat) : Except SimError Mat3 :=
  if normSq q = 0 then .error .zeroDivisionError else .ok (rotMatrix q)

open Classical in
/-- The notebook's inner `eomB` (Fossen eq. 2.90): the body-referenced
rigid-body equations of motion for spatial inertia `M`, generalized
velocity `ν`, and generalized force `τ`. `np.linalg.inv` is modelled as
`det⁻¹ • adjugate`, raising a numerical error exactly on a singular
matrix. -/
def eomB (M : Mat6) (ν τ : Vec6) : Except SimError Vec6 :=
  let ν1 := linPart ν
  let ν2 := angPart ν
  let M11 := M.toBlocks₁₁
  let M12 := M.toBlocks₁₂
  let M21 := M.toBlocks₂₁
  let M22 := M.toBlocks₂₂
  let C : Mat6 := Matrix.fromBlocks
    0 (-hat (M11 *ᵥ ν1 + M12 *ᵥ ν2))
    (-hat (M11 *ᵥ ν1 + M12 *ᵥ ν2)) (-hat (M21 *ᵥ ν1 + M22 *ᵥ ν2))
  if M.det = 0 then .error .numericalError
  else .ok ((M.det⁻¹ • M.adjugate) *ᵥ (τ - C *ᵥ ν))

/-- The notebook's `generate_equations_of_motion`: given the body-fixed
spatial inertia, return the fixed-frame equations of motion `eom`, which
rotates the inertia into the fixed frame, applies `eomB`, and adds the
rotating-frame correction term. -/
def generate_equations_of_motion (spatial_inertia_body : Mat6) :
    Pose → Vec6 → Vec6 → Except SimError Vec6 :=
  fun pose vels forces =>
    match as_rotation_matrix pose.q with
    | .error e => .error e
    | .ok R =>
      let RR := block_diag R R
      let M := RR * spatial_inertia_body * RRᵀ
      let w := angPart vels
      match eomB M vels forces with
      | .error e => .error e
      | .ok νd => .ok (νd + block_diag (hat w) (hat w) *ᵥ vels)

/-- Euclidean norm of a 3-vector, as used by the `quaternion` package's
exponential. -/
def vnorm (φ : Vec3) : ℝ := Real.sqrt (φ 0 ^ 2 + φ 1 ^ 2 + φ 2 ^ 2)

open Classical in
/-- `quaternion.from_rotation_vector`: the quaternion exponential of half
the rotation vector — the identity quaternion when the rotation vector is
zero, otherwise `(cos(θ/2), sin(θ/2)·φ/θ)` with `θ = |φ|`. -/
def from_rotation_vector (φ : Vec3) : Quat :=
  let θ := vnorm φ
  if θ = 0 then quatOne
  else ⟨Real.cos (θ / 2),
        Real.sin (θ / 2) * φ 0 / θ,
        Real.sin (θ / 2) * φ 1 / θ,
        Real.sin (θ / 2) * φ 2 / θ⟩

/-- The notebook's `generate_discrete_eom`: a semi-implicit Euler step of
size `Δt` around the continuous equations of motion `eomf`. The Python
version writes its results into output buffers; here the step returns the
triple (next pose, next velocities, accelerations). -/
def generate_discrete_eom (eomf : Pose → Vec6 → Vec6 → Except SimError Vec6)
    (Δt : ℝ) : Pose → Vec6 → Vec6 → Except SimError (Pose × Vec6 × Vec6) :=
  fun pose vels forces =>
    match eomf pose vels forces with
    | .error e => .error e
    | .ok accs =>
      let vels' : Vec6 := fun i => vels i + Δt * accs i
      .ok ({ t := pose.t + Δt,
             p := fun i => pose.p i + Δt * linPart vels' i,
             q := quatMul (from_rotation_vector (fun i => Δt * angPart vels' i)) pose.q },
           vels', accs)

/-- A discrete step function, as produced by `generate_discrete_eom`. -/
abbrev StepFn : Type := Pose → Vec6 → Vec6 → Except SimError (Pose × Vec6 × Vec6)

/-- The loop body of the notebook's `apply_discrete_eom`: starting at loop
index `n` with `k` steps left and current state `(p, v)`, read the force
at index `n` (an index error if the sequence is too short, exactly as
`forces[n]` on a too-short `ndarray`), apply one discrete step, and
recurse; the traces are assembled on the way out. -/
def runSim (step : StepFn) (forces : List Vec6) :
    ℕ → ℕ → Pose → Vec6 → Except SimError (List Pose × List Vec6 × List Vec6)
  | _, 0, p, v => .ok ([p], [v], [])
  | n, k + 1, p, v =>
    match forces.get? n with
    | none => .error (.indexError n)
    | some f =>
      match step p v f with
      | .error e => .error e
      | .ok (p', v', a) =>
        match runSim step forces (n + 1) k p' v' with
        | .error e => .error e
        | .ok (ps, vs, as) => .ok (p :: ps, v :: vs, a :: as)

/-- The notebook's `apply_discrete_eom`: run `n_steps` discrete steps from
the initial pose and velocity, producing the pose, velocity, and
acceleration traces. The Python version preallocates the trace arrays and
mutates them in the loop; an uncaught exception discards them, so the
embedding returns either the completed traces or the first error. -/
def apply_discrete_eom (pose0 : Pose) (vels0 : Vec6) (forces : List Vec6)
    (step : StepFn) (n_steps : ℕ) :
    Except SimError (List Pose × List Vec6 × List Vec6) :=
  runSim step forces 0 n_steps pose0 vels0

/-- The point transform of the derivation document (eq. transform2):
convert a spatial-inertia/added-mass matrix expressed about point `Q` to
the equivalent matrix about point `P`, where `r` is the displacement from
`P` to `Q`. -/
def transform_spatial_inertia (A : Mat6) (r : Vec3) : Mat6 :=
  A + Matrix.fromBlocks
    0 (-(A.toBlocks₁₁ * hat r))
    (hat r * A.toBlocks₁₁)
    (-(hat r * A.toBlocks₁₁ * hat r) + hat r * A.toBlocks₁₂ - A.toBlocks₂₁ * hat r)

/-- Concrete fixture: the pose at the origin with the identity
orientation, as set up in the notebook's driver cells. -/
def poseZero : Pose := ⟨0, fun _ => 0, quatOne⟩

/-- Concrete fixture: a pose with a different timestamp and position but
the same orientation as `poseZero`. -/
def poseShifted : Pose := ⟨5, fun _ => 1, quatOne⟩

/-- Concrete fixture: a step function that always succeeds, echoing its
pose and velocity and reporting the force as the acceleration. -/
def stepEcho : StepFn := fun p v f => .ok (p, v, f)

/-- Concrete fixture: a force sequence of four zero vectors. -/
def forces4 : List Vec6 := [0, 0, 0, 0]

/-- Concrete fixture: a continuous dynamics function that always returns
zero acceleration. -/
def eomZero : Pose → Vec6 → Vec6 → Except SimError Vec6 := fun _ _ _ => .ok 0

/-- Whether an `Except` result is a success. -/
def isOk {α : Type} : Except SimError α → Bool
  | .ok _ => true
  | .error _ => false

/-- The acceleration formula as the specification states it, written with
the mathematical matrix inverse: `M⁻¹·(τ − C(ν)·ν) + blockdiag(hat ω,
hat ω)·ν` with `M = blockdiag(R, R)·M_body·blockdiag(R, R)ᵗ`, `R` the
rotation matrix of the orientation quaternion, and `C(ν)` built from the
blocks of `M`. -/
def claimedAccel (Mb : Mat6) (q : Quat) (ν τ : Vec6) : Vec6 :=
  let R := rotMatrix q
  let M := block_diag R R * Mb * (block_diag R R)ᵀ
  let ν1 := linPart ν
  let ν2 := angPart ν
  let C : Mat6 := Matrix.fromBlocks
    0 (-hat (M.toBlocks₁₁ *ᵥ ν1 + M.toBlocks₁₂ *ᵥ ν2))
    (-hat (M.toBlocks₁₁ *ᵥ ν1 + M.toBlocks₁₂ *ᵥ ν2))
    (-hat (M.toBlocks₂₁ *ᵥ ν1 + M.toBlocks₂₂ *ᵥ ν2))
  M⁻¹ *ᵥ (τ - C *ᵥ ν) + block_diag (hat ν2) (hat ν2) *ᵥ ν

/-! ### Helper lemmas -/

/-- A successful step under an always-successful step function. -/
theorem stepOk_exists {step : StepFn} (hstep : ∀ p v f, isOk (step p v f) = true)
    (p : Pose) (v f : Vec6) : ∃ r, step p v f = .ok r := by
  cases h : step p v f with
  | ok r => exact ⟨r, rfl⟩
  | error e => have := hstep p v f; rw [h] at this; simp [isOk] at this

/-- If the force sequence covers all remaining steps, the loop succeeds. -/
theorem runSim_isOk {step : StepFn} (hstep : ∀ p v f, isOk (step p v f) = true)
    (fs : List Vec6) :
    ∀ (k n : ℕ) (p : Pose) (v : Vec6), n + k ≤ fs.length →
      isOk (runSim step fs n k p v) = true := by
  intro k
  induction k with
  | zero => intro n p v _; rfl
  | succ k ih =>
    intro n p v hlen
    have hn : n < fs.length := by omega
    obtain ⟨f, hf⟩ : ∃ f, fs.get? n = some f := ⟨_, List.get?_eq_get hn⟩
    obtain ⟨⟨p', v', a⟩, hr⟩ := stepOk_exists hstep p v f
    have hrec := ih (n + 1) p' v' (by omega)
    simp only [runSim, hf, hr]
    cases hrun : runSim step fs (n + 1) k p' v' with
    | ok t => obtain ⟨ps, vs, as⟩ := t; rfl
    | error e => rw [hrun] at hrec; simp [isOk] at hrec

/-- If the force sequence runs out before the remaining steps do, the loop
fails with an index error at the first missing index, `fs.length`. -/
theorem runSim_indexError {step : StepFn} (hstep : ∀ p v f, isOk (step p v f) = true)
    (fs : List Vec6) :
    ∀ (k n : ℕ) (p : Pose) (v : Vec6), n ≤ fs.length → fs.length < n + k →
      runSim step fs n k p v = .error (.indexError fs.length) := by
  intro k
  induction k with
  | zero => intro n p v h1 h2; omega
  | succ k ih =>
    intro n p v h1 h2
    by_cases hn : n = fs.length
    · have hnone : fs.get? n = none := by
        rw [hn]; exact List.get?_eq_none.mpr (le_refl _)
      rw [runSim, hnone, hn]
    · have hlt : n < fs.length := lt_of_le_of_ne h1 hn
      obtain ⟨f, hf⟩ : ∃ f, fs.get? n = some f := ⟨_, List.get?_eq_get hlt⟩
      obtain ⟨⟨p', v', a⟩, hr⟩ := stepOk_exists hstep p v f
      simp only [runSim, hf, hr]
      rw [ih (n + 1) p' v' (by omega) (by omega)]

/-- The hat matrix is skew-symmetric. -/
theorem hat_transpose (r : Vec3) : (hat r)ᵀ = -hat r := by
  ext i j
  fin_cases i <;> fin_cases j <;> simp [hat]

/-- The hat operator is odd. -/
theorem hat_neg (r : Vec3) : hat (-r) = -hat r := by
  ext i j
  fin_cases i <;> fin_cases j <;> simp [hat]

/-- The point transform is the congruence of the matrix by the
block-triangular velocity change `x ↦ (v - hat r · ω, ω)`. -/
theorem transform_eq_conj (A : Mat6) (r : Vec3) :
    transform_spatial_inertia A r =
      (Matrix.fromBlocks 1 (-hat r) 0 1)ᵀ * A * Matrix.fromBlocks 1 (-hat r) 0 1 := by
  conv_rhs => rw [← Matrix.fromBlocks_toBlocks A]
  rw [Matrix.fromBlocks_transpose, Matrix.fromBlocks_multiply, Matrix.fromBlocks_multiply,
    transform_spatial_inertia]
  conv_lhs => rw [← Matrix.fromBlocks_toBlocks A]
  rw [Matrix.fromBlocks_add]
  rw [Matrix.transpose_neg, hat_transpose, neg_neg, Matrix.transpose_zero, Matrix.transpose_one]
  simp only [Matrix.toBlocks_fromBlocks₁₁, Matrix.toBlocks_fromBlocks₁₂,
    Matrix.toBlocks_fromBlocks₂₁, Matrix.toBlocks_fromBlocks₂₂]
  simp
  refine ⟨by abel, by abel, by noncomm_ring⟩

/-- Full characterization of a successful driver run: trace lengths,
initial entries, and the step recurrence relating consecutive entries. -/
theorem runSim_spec {step : StepFn} (hstep : ∀ p v f, isOk (step p v f) = true)
    (fs : List Vec6) :
    ∀ (k n : ℕ) (p : Pose) (v : Vec6), n + k ≤ fs.length →
      ∃ ps vs as, runSim step fs n k p v = .ok (ps, vs, as) ∧
        ps.length = k + 1 ∧ vs.length = k + 1 ∧ as.length = k ∧
        ps.get? 0 = some p ∧ vs.get? 0 = some v ∧
        ∀ i < k, ∃ pi vi fi r, ps.get? i = some pi ∧ vs.get? i = some vi ∧
          fs.get? (n + i) = some fi ∧ step pi vi fi = .ok r ∧
          ps.get? (i + 1) = some r.1 ∧ vs.get? (i + 1) = some r.2.1 ∧
          as.get? i = some r.2.2 := by
  intro k
  induction k with
  | zero =>
    intro n p v _
    exact ⟨[p], [v], [], rfl, rfl, rfl, rfl, rfl, rfl, fun i hi => absurd hi (by omega)⟩
  | succ k ih =>
    intro n p v hlen
    have hn : n < fs.length := by omega
    obtain ⟨f, hf⟩ : ∃ f, fs.get? n = some f := ⟨_, List.get?_eq_get hn⟩
    obtain ⟨⟨p', v', a⟩, hr⟩ := stepOk_exists hstep p v f
    obtain ⟨ps', vs', as', hrun, hlp, hlv, hla, hhp, hhv, hrec⟩ :=
      ih (n + 1) p' v' (by omega)
    refine ⟨p :: ps', v :: vs', a :: as', ?_, by simp [hlp], by simp [hlv],
      by simp [hla], rfl, rfl, ?_⟩
    · simp only [runSim, hf, hr, hrun]
    · intro i hi
      match i with
      | 0 =>
        refine ⟨p, v, f, (p', v', a), rfl, rfl, by simpa using hf, hr, ?_, ?_, rfl⟩
        · simpa using hhp
        · simpa using hhv
      | j + 1 =>
        obtain ⟨pi, vi, fi, r, h1, h2, h3, h4, h5, h6, h7⟩ := hrec j (by omega)
        refine ⟨pi, vi, fi, r, by simpa using h1, by simpa using h2, ?_, h4,
          by simpa using h5, by simpa using h6, by simpa using h7⟩
        have : n + (j + 1) = n + 1 + j := by omega
        rw [this]; exact h3

/-- C1 counterexample: the driver performs no shape check at the call
boundary. With `n_steps = 3` and a force sequence of length 4 (≠ 3), no
error of any kind is raised: the run completes successfully, so the claim
that any length mismatch raises a ShapeError is false. -/
theorem C1_counterexample :
    forces4.length ≠ 3 ∧ isOk (apply_discrete_eom poseZero 0 forces4 stepEcho 3) = true := by
  constructor
  · simp [forces4]
  · rfl

/-- C1 (amended): the driver performs no shape check at the call boundary.
Under a step function that always succeeds, the run completes with no
error whenever the force sequence has length at least `n_steps` (even when
the lengths differ), and fails with an index error naming index
`fs.length` — not a ShapeError — exactly when the sequence is shorter than
`n_steps`, the missing force being read only after the earlier steps were
computed. -/
theorem C1_no_boundary_shape_check (p0 : Pose) (v0 : Vec6) (fs : List Vec6)
    (step : StepFn) (n : ℕ) (hstep : ∀ p v f, isOk (step p v f) = true) :
    (n ≤ fs.length → isOk (apply_discrete_eom p0 v0 fs step n) = true) ∧
    (fs.length < n → apply_discrete_eom p0 v0 fs step n = .error (.indexError fs.length)) := by
  constructor
  · intro h
    exact runSim_isOk hstep fs n 0 p0 v0 (by omega)
  · intro h
    exact runSim_indexError hstep fs n 0 p0 v0 (by omega) (by omega)

/-- Witness for C1 (amended) at the spec's own example: `n_steps = 5` with
a force sequence of length 4 fails with an index error at index 4. -/
theorem C1_no_boundary_shape_check_witness :
    apply_discrete_eom poseZero 0 forces4 stepEcho 5 = .error (.indexError 4) :=
  (C1_no_boundary_shape_check poseZero 0 forces4 stepEcho 5 (fun _ _ _ => rfl)).2
    (by simp [forces4])

/-- C6: for a well-formed run (force sequence of length exactly `n_steps`,
dynamics succeeding at every step), the driver returns pose and velocity
traces of length `n_steps + 1` whose index 0 holds exactly the initial
pose and velocity, and an acceleration trace of length `n_steps`; each
step `i` reads only the state at index `i` and writes the resulting pose
and velocity to index `i + 1` and the acceleration realized during that
transition to index `i`. -/
theorem C6_trace_shape (p0 : Pose) (v0 : Vec6) (fs : List Vec6) (step : StepFn)
    (n : ℕ) (hstep : ∀ p v f, isOk (step p v f) = true) (hlen : fs.length = n) :
    ∃ ps vs as, apply_discrete_eom p0 v0 fs step n = .ok (ps, vs, as) ∧
      ps.length = n + 1 ∧ vs.length = n + 1 ∧ as.length = n ∧
      ps.get? 0 = some p0 ∧ vs.get? 0 = some v0 ∧
      ∀ i < n, ∃ pi vi fi r, ps.get? i = some pi ∧ vs.get? i = some vi ∧
        fs.get? i = some fi ∧ step pi vi fi = .ok r ∧
        ps.get? (i + 1) = some r.1 ∧ vs.get? (i + 1) = some r.2.1 ∧
        as.get? i = some r.2.2 := by
  have h := runSim_spec hstep fs n 0 p0 v0 (by omega)
  simpa [apply_discrete_eom] using h

/-- Witness for C6 with one step, the always-successful echo step, and a
matching force sequence of length 1. -/
theorem C6_trace_shape_witness :
    ∃ ps vs as, apply_discrete_eom poseZero 0 [(0 : Vec6)] stepEcho 1 = .ok (ps, vs, as) ∧
      ps.length = 1 + 1 ∧ vs.length = 1 + 1 ∧ as.length = 1 ∧
      ps.get? 0 = some poseZero ∧ vs.get? 0 = some 0 ∧
      ∀ i < 1, ∃ pi vi fi r, ps.get? i = some pi ∧ vs.get? i = some vi ∧
        ([(0 : Vec6)]).get? i = some fi ∧ stepEcho pi vi fi = .ok r ∧
        ps.get? (i + 1) = some r.1 ∧ vs.get? (i + 1) = some r.2.1 ∧
        as.get? i = some r.2.2 :=
  C6_trace_shape poseZero 0 [(0 : Vec6)] stepEcho 1 (fun _ _ _ => rfl) rfl

/-- The rotation matrix of a nonzero quaternion has determinant one. -/
theorem rotMatrix_det (q : Quat) (h : normSq q ≠ 0) : (rotMatrix q).det = 1 := by
  have h' : q.w ^ 2 + q.x ^ 2 + q.y ^ 2 + q.z ^ 2 ≠ 0 := by simpa [normSq] using h
  simp only [rotMatrix, normSq]
  rw [Matrix.det_fin_three]
  simp
  field_simp
  ring

/-- Determinant of a two-block diagonal matrix. -/
theorem block_diag_det (R : Mat3) : (block_diag R R).det = R.det * R.det := by
  simp only [block_diag]
  rw [Matrix.det_fromBlocks_zero₂₁]

/-- Rotating a spatial inertia into the fixed frame by a rotation of unit
determinant preserves its determinant. -/
theorem rotated_det (R : Mat3) (Mb : Mat6) (hR : R.det = 1) :
    (block_diag R R * Mb * (block_diag R R)ᵀ).det = Mb.det := by
  rw [Matrix.det_mul, Matrix.det_mul, Matrix.det_transpose, block_diag_det, hR]
  ring

/-- The embedded `np.linalg.inv` value is the mathematical inverse. -/
theorem adjugate_smul_eq_inv (M : Mat6) : M.det⁻¹ • M.adjugate = M⁻¹ := by
  rw [Matrix.inv_def, Ring.inverse_eq_inv]

/-- C2: for an invertible body-fixed spatial inertia and a valid (nonzero)
orientation quaternion, the dynamics return exactly the spec's
acceleration `M⁻¹·(τ − C(ν)·ν) + blockdiag(hat ω, hat ω)·ν` with
`M = blockdiag(R, R)·M_body·blockdiag(R, R)ᵗ`, `R` the rotation matrix of
the orientation, `ω = ν2`, and `C(ν)` the stated skew-block matrix. -/
theorem C2_dynamics_formula (Mb : Mat6) (pose : Pose) (ν1 ν2 : Vec3) (τ : Vec6)
    (hM : Mb.det ≠ 0) (hq : normSq pose.q ≠ 0) :
    generate_equations_of_motion Mb pose (stack6 ν1 ν2) τ =
      .ok (claimedAccel Mb pose.q (stack6 ν1 ν2) τ) := by
  have hdet : (block_diag (rotMatrix pose.q) (rotMatrix pose.q) * Mb *
      (block_diag (rotMatrix pose.q) (rotMatrix pose.q))ᵀ).det ≠ 0 := by
    rw [rotated_det _ _ (rotMatrix_det _ hq)]
    exact hM
  simp only [generate_equations_of_motion, as_rotation_matrix, if_neg hq, eomB,
    if_neg hdet, claimedAccel, adjugate_smul_eq_inv]

/-- Witness for C2 at the identity inertia, the origin pose with identity
orientation, and zero velocity and force. -/
theorem C2_dynamics_formula_witness :
    generate_equations_of_motion 1 poseZero (stack6 (fun _ => 0) (fun _ => 0)) 0 =
      .ok (claimedAccel 1 poseZero.q (stack6 (fun _ => 0) (fun _ => 0)) 0) :=
  C2_dynamics_formula 1 poseZero (fun _ => 0) (fun _ => 0) 0 (by simp)
    (by norm_num [normSq, poseZero, quatOne])

/-- C8: for a singular body-fixed spatial inertia and any pose with a
valid (nonzero) orientation quaternion, any velocity, and any force, the
dynamics fail with a numerical error at the matrix inversion, with no
partial result. -/
theorem C8_singular_inertia (Mb : Mat6) (pose : Pose) (ν τ : Vec6)
    (hM : Mb.det = 0) (hq : normSq pose.q ≠ 0) :
    generate_equations_of_motion Mb pose ν τ = .error .numericalError := by
  have hdet : (block_diag (rotMatrix pose.q) (rotMatrix pose.q) * Mb *
      (block_diag (rotMatrix pose.q) (rotMatrix pose.q))ᵀ).det = 0 := by
    rw [rotated_det _ _ (rotMatrix_det _ hq)]
    exact hM
  simp only [generate_equations_of_motion, as_rotation_matrix, if_neg hq, eomB,
    if_pos hdet]

/-- Witness for C8 at the (rank-deficient) zero inertia matrix. -/
theorem C8_singular_inertia_witness :
    generate_equations_of_motion 0 poseZero 0 0 = .error .numericalError :=
  C8_singular_inertia 0 poseZero 0 0 (by simp)
    (by norm_num [normSq, poseZero, quatOne])

/-- The rotation-vector exponential at the zero vector is the identity
quaternion. -/
theorem from_rotation_vector_zero : from_rotation_vector 0 = quatOne := by
  simp [from_rotation_vector, vnorm]

/-- The norm of a nonzero 3-vector is nonzero. -/
theorem vnorm_ne_zero (φ : Vec3) (h : φ ≠ 0) : vnorm φ ≠ 0 := by
  intro h0
  apply h
  have hle : φ 0 ^ 2 + φ 1 ^ 2 + φ 2 ^ 2 ≤ 0 := Real.sqrt_eq_zero'.mp h0
  have h00 : φ 0 = 0 := by nlinarith [sq_nonneg (φ 0), sq_nonneg (φ 1), sq_nonneg (φ 2)]
  have h11 : φ 1 = 0 := by nlinarith [sq_nonneg (φ 0), sq_nonneg (φ 1), sq_nonneg (φ 2)]
  have h22 : φ 2 = 0 := by nlinarith [sq_nonneg (φ 0), sq_nonneg (φ 1), sq_nonneg (φ 2)]
  funext i
  fin_cases i
  · simpa using h00
  · simpa using h11
  · simpa using h22

/-- C3: one step of the discrete integrator computes the acceleration from
the dynamics, then `vel_next = vel + Δt·accel`, advances the timestamp by
`Δt`, moves the position by `Δt` times the UPDATED linear velocity, and
left-composes the rotation-vector exponential of `Δt` times the updated
angular velocity onto the previous orientation, with no renormalization;
the exponential sends the zero rotation vector to the identity quaternion
`(1,0,0,0)` and a nonzero `φ` to `(cos(|φ|/2), sin(|φ|/2)·φ/|φ|)`. -/
theorem C3_integrator_step (eomf : Pose → Vec6 → Vec6 → Except SimError Vec6)
    (Δt : ℝ) (pose : Pose) (vels forces accs : Vec6)
    (h : eomf pose vels forces = .ok accs) :
    generate_discrete_eom eomf Δt pose vels forces =
      .ok ({ t := pose.t + Δt,
             p := fun i => pose.p i + Δt * (vels (Sum.inl i) + Δt * accs (Sum.inl i)),
             q := quatMul (from_rotation_vector
               (fun i => Δt * (vels (Sum.inr i) + Δt * accs (Sum.inr i)))) pose.q },
           fun i => vels i + Δt * accs i, accs) ∧
    from_rotation_vector 0 = quatOne ∧
    ∀ φ : Vec3, φ ≠ 0 →
      from_rotation_vector φ =
        ⟨Real.cos (vnorm φ / 2), Real.sin (vnorm φ / 2) * φ 0 / vnorm φ,
         Real.sin (vnorm φ / 2) * φ 1 / vnorm φ,
         Real.sin (vnorm φ / 2) * φ 2 / vnorm φ⟩ := by
  refine ⟨?_, from_rotation_vector_zero, ?_⟩
  · simp only [generate_discrete_eom, h]
    rfl
  · intro φ hφ
    rw [from_rotation_vector, if_neg (vnorm_ne_zero φ hφ)]

/-- Witness for C3 at the zero dynamics, unit timestep, origin pose, and
zero velocity and force. -/
theorem C3_integrator_step_witness :
    generate_discrete_eom eomZero 1 poseZero 0 0 =
      .ok ({ t := poseZero.t + 1,
             p := fun i => poseZero.p i +
               1 * ((0 : Vec6) (Sum.inl i) + 1 * (0 : Vec6) (Sum.inl i)),
             q := quatMul (from_rotation_vector
               (fun i => 1 * ((0 : Vec6) (Sum.inr i) + 1 * (0 : Vec6) (Sum.inr i))))
               poseZero.q },
           fun i => (0 : Vec6) i + 1 * (0 : Vec6) i, 0) ∧
    from_rotation_vector 0 = quatOne ∧
    ∀ φ : Vec3, φ ≠ 0 →
      from_rotation_vector φ =
        ⟨Real.cos (vnorm φ / 2), Real.sin (vnorm φ / 2) * φ 0 / vnorm φ,
         Real.sin (vnorm φ / 2) * φ 1 / vnorm φ,
         Real.sin (vnorm φ / 2) * φ 2 / vnorm φ⟩ :=
  C3_integrator_step eomZero 1 poseZero 0 0 0 rfl

/-- The identity quaternion is a left unit for the Hamilton product. -/
theorem one_quatMul (q : Quat) : quatMul quatOne q = q := by
  cases q
  simp [quatMul, quatOne]

/-- With the identity spatial inertia, zero velocity, and zero force, the
dynamics return zero acceleration (for a valid orientation). -/
theorem eom_free (pose : Pose) (hq : normSq pose.q ≠ 0) :
    generate_equations_of_motion 1 pose 0 0 = .ok 0 := by
  have hdet : (block_diag (rotMatrix pose.q) (rotMatrix pose.q) * 1 *
      (block_diag (rotMatrix pose.q) (rotMatrix pose.q))ᵀ).det ≠ 0 := by
    rw [rotated_det _ _ (rotMatrix_det _ hq)]
    simp
  simp only [generate_equations_of_motion, as_rotation_matrix, if_neg hq, eomB,
    if_neg hdet, Matrix.mulVec_zero, sub_zero, zero_sub, neg_zero, add_zero]

/-- With the identity spatial inertia, zero velocity, and zero force, one
discrete step leaves position, orientation, and velocity unchanged and
only advances the timestamp, with zero acceleration. -/
theorem free_step (Δt t : ℝ) (p0 : Vec3) (q : Quat) (hq : normSq q ≠ 0) :
    generate_discrete_eom (generate_equations_of_motion 1) Δt ⟨t, p0, q⟩ 0 0 =
      .ok (⟨t + Δt, p0, q⟩, 0, 0) := by
  simp only [generate_discrete_eom, eom_free ⟨t, p0, q⟩ hq]
  simp only [Except.ok.injEq, Prod.mk.injEq, Pose.mk.injEq]
  have hφ : (fun i => Δt * angPart (fun j => (0 : Vec6) j + Δt * (0 : Vec6) j) i) =
      (0 : Vec3) := by
    funext i
    simp [angPart]
  refine ⟨⟨by trivial, ?_, ?_⟩, ?_, by trivial⟩
  · funext i
    simp [linPart]
  · rw [hφ, from_rotation_vector_zero, one_quatMul]
  · funext i
    simp

/-- The driver run for free motion with unit inertia: every trace entry
keeps the initial position and orientation, all velocities and
accelerations are zero, and only the timestamp advances. -/
theorem runSim_free (Δt : ℝ) (p0 : Vec3) (q : Quat) (hq : normSq q ≠ 0) (m : ℕ) :
    ∀ (k n : ℕ) (t : ℝ), n + k ≤ m →
      runSim (generate_discrete_eom (generate_equations_of_motion 1) Δt)
        (List.replicate m 0) n k ⟨t, p0, q⟩ 0 =
      .ok ((List.range (k + 1)).map (fun i : ℕ => (⟨t + i * Δt, p0, q⟩ : Pose)),
           List.replicate (k + 1) 0, List.replicate k 0) := by
  intro k
  induction k with
  | zero =>
    intro n t _
    show Except.ok ([(⟨t, p0, q⟩ : Pose)], [(0 : Vec6)], ([] : List Vec6)) = _
    simp [List.range_succ]
  | succ k ih =>
    intro n t hnk
    have hf : (List.replicate m (0 : Vec6)).get? n = some 0 := by
      rw [List.get?_eq_getElem?]
      exact List.getElem?_replicate_of_lt (by omega)
    simp only [runSim, hf, free_step Δt t p0 q hq, ih (n + 1) (t + Δt) (by omega)]
    simp only [Except.ok.injEq, Prod.mk.injEq]
    refine ⟨?_, rfl, rfl⟩
    have hfun : ((fun i : ℕ => (⟨t + i * Δt, p0, q⟩ : Pose)) ∘ Nat.succ) =
        fun i : ℕ => (⟨t + Δt + i * Δt, p0, q⟩ : Pose) := by
      funext i
      simp only [Function.comp_apply]
      congr 1
      push_cast
      ring
    conv_rhs => rw [List.range_succ_eq_map, List.map_cons, List.map_map]
    rw [hfun]
    simp

/-- C7: free motion with unit inertia: for every timestep, every valid
initial pose (nonzero orientation quaternion), zero initial velocity, and
zero force at every step, the pose trace keeps the initial position and
orientation at every index with only the timestamp advancing by `i·Δt`,
the velocity trace is identically zero, and every acceleration is zero. -/
theorem C7_free_motion (Δt : ℝ) (pose0 : Pose) (n : ℕ) (hq : normSq pose0.q ≠ 0) :
    apply_discrete_eom pose0 0 (List.replicate n 0)
      (generate_discrete_eom (generate_equations_of_motion 1) Δt) n =
      .ok ((List.range (n + 1)).map
             (fun i : ℕ => (⟨pose0.t + i * Δt, pose0.p, pose0.q⟩ : Pose)),
           List.replicate (n + 1) 0, List.replicate n 0) := by
  obtain ⟨t, p0, q⟩ := pose0
  exact runSim_free Δt p0 q hq n n 0 t (by omega)

/-- Witness for C7 with unit timestep, the origin pose, and two steps. -/
theorem C7_free_motion_witness :
    apply_discrete_eom poseZero 0 (List.replicate 2 0)
      (generate_discrete_eom (generate_equations_of_motion 1) 1) 2 =
      .ok ((List.range (2 + 1)).map
             (fun i : ℕ => (⟨poseZero.t + i * 1, poseZero.p, poseZero.q⟩ : Pose)),
           List.replicate (2 + 1) 0, List.replicate 2 0) :=
  C7_free_motion 1 poseZero 2 (by norm_num [normSq, poseZero, quatOne])

/-- C4: the spatial-inertia point transform preserves the kinetic-energy
quadratic form: for every 6×6 matrix `A_Q`, displacement `r` from `P` to
`Q`, linear velocity `v_P`, and angular velocity `ω`, evaluating the
transformed matrix at `(v_P, ω)` agrees with evaluating `A_Q` at
`(v_Q, ω)` where `v_Q = v_P - hat r · ω`; no symmetry, definiteness, or
invertibility of `A_Q` is assumed. -/
theorem C4_kinetic_energy_invariance (A : Mat6) (r vP ω : Vec3) :
    stack6 vP ω ⬝ᵥ (transform_spatial_inertia A r *ᵥ stack6 vP ω) =
      stack6 (vP - hat r *ᵥ ω) ω ⬝ᵥ (A *ᵥ stack6 (vP - hat r *ᵥ ω) ω) := by
  have hU : Matrix.fromBlocks 1 (-hat r) 0 1 *ᵥ stack6 vP ω =
      stack6 (vP - hat r *ᵥ ω) ω := by
    rw [stack6, Matrix.fromBlocks_mulVec]
    simp [Matrix.neg_mulVec, stack6, sub_eq_add_neg]
  rw [transform_eq_conj, ← Matrix.mulVec_mulVec, ← Matrix.mulVec_mulVec,
    Matrix.dotProduct_mulVec, Matrix.vecMul_transpose, hU]

/-- C5: round trip of the point transform: applying the transform with
displacement `r` and then with `-r` returns the original 6×6 matrix
exactly, for every matrix and displacement. -/
theorem C5_transform_roundtrip (A : Mat6) (r : Vec3) :
    transform_spatial_inertia (transform_spatial_inertia A r) (-r) = A := by
  have hU : (Matrix.fromBlocks 1 (-hat r) 0 1 : Mat6) *
      Matrix.fromBlocks 1 (-hat (-r)) 0 1 = 1 := by
    rw [hat_neg, neg_neg, Matrix.fromBlocks_multiply]
    simp [Matrix.fromBlocks_one]
  have hUt : (Matrix.fromBlocks 1 (-hat (-r)) 0 1 : Mat6)ᵀ *
      (Matrix.fromBlocks 1 (-hat r) 0 1 : Mat6)ᵀ = 1 := by
    rw [← Matrix.transpose_mul, hU, Matrix.transpose_one]
  rw [transform_eq_conj, transform_eq_conj]
  have hassoc :
      (Matrix.fromBlocks 1 (-hat (-r)) 0 1 : Mat6)ᵀ *
          ((Matrix.fromBlocks 1 (-hat r) 0 1 : Mat6)ᵀ * A *
            Matrix.fromBlocks 1 (-hat r) 0 1) *
          Matrix.fromBlocks 1 (-hat (-r)) 0 1 =
        ((Matrix.fromBlocks 1 (-hat (-r)) 0 1 : Mat6)ᵀ *
            (Matrix.fromBlocks 1 (-hat r) 0 1 : Mat6)ᵀ) * A *
          (Matrix.fromBlocks 1 (-hat r) 0 1 * Matrix.fromBlocks 1 (-hat (-r)) 0 1) := by
    noncomm_ring
  rw [hassoc, hUt, hU, one_mul, mul_one]

/-- C9: with `n_steps = 0` the driver returns singleton pose and velocity
traces holding exactly the initial state and an empty acceleration trace,
for every initial state, force sequence, and step function — the step
function (and hence the dynamics) is never invoked, so no error can be
raised even when the inertia matrix is singular. -/
theorem C9_zero_steps (p0 : Pose) (v0 : Vec6) (fs : List Vec6) (step : StepFn) :
    apply_discrete_eom p0 v0 fs step 0 = .ok ([p0], [v0], []) := rfl

/-- C10: the dynamics depend on the pose only through its orientation
quaternion: two poses with the same orientation but arbitrary timestamps
and positions yield identical accelerations for the same velocity and
force. -/
theorem C10_translation_invariance (Mb : Mat6) (p1 p2 : Pose) (ν τ : Vec6)
    (h : p1.q = p2.q) :
    generate_equations_of_motion Mb p1 ν τ = generate_equations_of_motion Mb p2 ν τ := by
  simp only [generate_equations_of_motion]
  rw [h]

/-- Witness for C10 at two concrete poses sharing the identity
orientation but differing in timestamp and position. -/
theorem C10_translation_invariance_witness :
    generate_equations_of_motion 1 poseZero 0 0 =
      generate_equations_of_motion 1 poseShifted 0 0 :=
  C10_translation_invariance 1 poseZero poseShifted 0 0 rfl

end
